import Mathlib

/-!
Shallow embedding of the in-memory todo store of `MGter/xStreamTool_go`
(package `store` and package `models`), together with theorems checking the
natural-language specification against it.

Modelling conventions:
- Go `time.Time` values are modelled as `Int` (an instant on a linear time
  line, e.g. nanoseconds); `time.Time.IsZero` becomes equality with `0`,
  `After` becomes `>`, `Before` becomes `<`.  Each operation that calls
  `time.Now()` takes the current instant as an explicit `now` parameter.
- The Go map `map[int]*Todo` is modelled as a `List Todo` keyed by the `id`
  field: lookup is first match, assignment replaces the entry with the same
  key or appends, and `delete` removes every entry with the key (a map holds
  at most one).  Go map iteration order is unspecified; every claim proved
  about an iteration is order-insensitive (membership, counts, permutations,
  sortedness after the explicit sort).
- Go `int` is modelled as `Int`; the id counter is only ever incremented,
  far from any machine bound, so overflow is not modelled.
- Fallible operations return `Except StoreErr`; mutating operations also
  return the post-state, so that failure paths can be seen to leave the
  store unchanged.
-/

namespace XStream

/-- Store-level errors (`ErrTodoNotFound`, `ErrInvalidID` in the source). -/
inductive StoreErr where
  | todoNotFound
  | invalidID
  deriving DecidableEq, Repr

/-- The `models.Todo` record.  Times are `Int` instants; `dueDate = 0`
models the Go zero `time.Time` (no due date set). -/
structure Todo where
  id : Int
  title : String
  description : String
  completed : Bool
  priority : Int
  category : String
  dueDate : Int
  createdAt : Int
  updatedAt : Int
  deriving DecidableEq, Repr

/-- The `models.TodoRequest` payload for create and update. -/
structure TodoRequest where
  title : String
  description : String
  completed : Bool
  priority : Int
  category : String
  dueDate : Int
  deriving DecidableEq, Repr

/-- The `models.TodoResponse` record with the two derived fields. -/
structure TodoResponse where
  id : Int
  title : String
  description : String
  completed : Bool
  priority : Int
  category : String
  dueDate : Int
  createdAt : Int
  updatedAt : Int
  status : String
  isOverdue : Bool
  deriving DecidableEq, Repr

/-- Todo.ToResponse: derives `isOverdue` and `status` from `completed` and
`dueDate` relative to `now` and copies every stored field. -/
def Todo.toResponse (t : Todo) (now : Int) : TodoResponse :=
  let isOverdue := !t.completed && !(t.dueDate == 0) && decide (t.dueDate < now)
  let status := if t.completed then "已完成" else if isOverdue then "已过期" else "进行中"
  { id := t.id, title := t.title, description := t.description,
    completed := t.completed, priority := t.priority, category := t.category,
    dueDate := t.dueDate, createdAt := t.createdAt, updatedAt := t.updatedAt,
    status := status, isOverdue := isOverdue }

/-- Todo.FromRequest: overwrites every mutable field with the request's
value and stamps `updatedAt` with the current time; `id` and `createdAt`
are untouched. -/
def Todo.fromRequest (t : Todo) (req : TodoRequest) (now : Int) : Todo :=
  { t with title := req.title, description := req.description,
           completed := req.completed, priority := req.priority,
           category := req.category, dueDate := req.dueDate,
           updatedAt := now }

/-- MemoryStore: the todo map (as an id-keyed list) plus the id counter. -/
structure MemoryStore where
  todos : List Todo
  nextID : Int
  deriving DecidableEq, Repr

/-- Lookup of `s.todos[id]` in the Go map. -/
def findTodo (l : List Todo) (id : Int) : Option Todo :=
  l.find? (fun t => t.id == id)

/-- Assignment `s.todos[t.ID] = t` in the Go map: replace the entry with
the same key if present, otherwise add the entry. -/
def insertTodo (l : List Todo) (t : Todo) : List Todo :=
  match l with
  | [] => [t]
  | u :: rest => if u.id == t.id then t :: rest else u :: insertTodo rest t

/-- Statement `delete(s.todos, id)` in the Go map: remove the entry with
the key (a map holds at most one entry per key). -/
def eraseTodo (l : List Todo) (id : Int) : List Todo :=
  l.filter (fun t => !(t.id == id))

/-- MemoryStore literal built inside `NewMemoryStore` before seeding: empty
map, counter starting at 1. -/
def emptyInit : MemoryStore := { todos := [], nextID := 1 }

/-- One hour of model time (`time.Hour` in nanoseconds). -/
def hourNs : Int := 3600000000000

/-- MemoryStore.Seed: writes the three example todos at keys 1, 2, 3 and
sets the counter to 4. -/
def seedStore (s : MemoryStore) (now : Int) : MemoryStore :=
  let t1 : Todo :=
    { id := 1, title := "学习 Go 语言",
      description := "掌握 Go 语言的基础语法和并发编程",
      completed := false, priority := 3, category := "学习",
      dueDate := now + 7 * 24 * hourNs,
      createdAt := now - 2 * 24 * hourNs, updatedAt := now - 2 * 24 * hourNs }
  let t2 : Todo :=
    { id := 2, title := "编写 HTTP 服务器",
      description := "使用 Go 实现一个完整的 HTTP 服务器",
      completed := true, priority := 4, category := "项目",
      dueDate := now - 1 * 24 * hourNs,
      createdAt := now - 3 * 24 * hourNs, updatedAt := now - 1 * 24 * hourNs }
  let t3 : Todo :=
    { id := 3, title := "部署到服务器",
      description := "将应用部署到生产环境",
      completed := false, priority := 2, category := "运维",
      dueDate := now + 3 * 24 * hourNs,
      createdAt := now - 1 * 24 * hourNs, updatedAt := now - 1 * 24 * hourNs }
  { todos := insertTodo (insertTodo (insertTodo s.todos t1) t2) t3, nextID := 4 }

/-- NewMemoryStore: empty store with counter 1, then `Seed`. -/
def newMemoryStore (now : Int) : MemoryStore := seedStore emptyInit now

/-- MemoryStore.GetTodoByID. -/
def getTodoByID (s : MemoryStore) (id : Int) : Except StoreErr Todo :=
  match findTodo s.todos id with
  | none => .error .todoNotFound
  | some t => .ok t

/-- MemoryStore.CreateTodo: builds the record from the request with
`id = nextID` and both timestamps `now`, stores it, bumps the counter and
returns it (this operation never fails). -/
def createTodo (s : MemoryStore) (req : TodoRequest) (now : Int) :
    Todo × MemoryStore :=
  let todo : Todo :=
    { id := s.nextID, title := req.title, description := req.description,
      completed := req.completed, priority := req.priority,
      category := req.category, dueDate := req.dueDate,
      createdAt := now, updatedAt := now }
  (todo, { todos := insertTodo s.todos todo, nextID := s.nextID + 1 })

/-- MemoryStore.UpdateTodo: fails with `todoNotFound` when the id is
absent; otherwise rewrites the stored record via `Todo.fromRequest`. -/
def updateTodo (s : MemoryStore) (id : Int) (req : TodoRequest) (now : Int) :
    MemoryStore × Except StoreErr Todo :=
  match findTodo s.todos id with
  | none => (s, .error .todoNotFound)
  | some t =>
      let t' := t.fromRequest req now
      ({ s with todos := insertTodo s.todos t' }, .ok t')

/-- MemoryStore.DeleteTodo: fails with `todoNotFound` when the id is
absent; otherwise removes the entry. -/
def deleteTodo (s : MemoryStore) (id : Int) : MemoryStore × Except StoreErr Unit :=
  match findTodo s.todos id with
  | none => (s, .error .todoNotFound)
  | some _ => ({ s with todos := eraseTodo s.todos id }, .ok ())

/-- Comparator of `GetAllTodos` read as a total preorder: `a` may precede
`b` when `a` was created no earlier than `b` (created-at descending). -/
def allLe (a b : Todo) : Bool := decide (b.createdAt ≤ a.createdAt)

/-- MemoryStore.GetAllTodos: every stored todo, sorted by creation time
descending; the error value is always nil. -/
def getAllTodos (s : MemoryStore) : Except StoreErr (List Todo) :=
  .ok (List.mergeSort s.todos allLe)

/-- Check whether the character list `s` starts with the character list
`pat`. -/
def startsWithChars : List Char → List Char → Bool
  | [], _ => true
  | _ :: _, [] => false
  | a :: pat, b :: s => a == b && startsWithChars pat s

/-- Check whether `pat` occurs contiguously inside `s`. -/
def containsChars (pat : List Char) : List Char → Bool
  | [] => startsWithChars pat []
  | b :: s => startsWithChars pat (b :: s) || containsChars pat s

/-- Embedding of `strings.Contains(s, pat)`: case-sensitive contiguous
substring test. -/
def goContains (s pat : String) : Bool := containsChars pat.toList s.toList

/-- Filter of `SearchTodos`: conjunction of the three optional criteria,
each skipped when the argument is empty (or nil for the tri-state
completed filter). -/
def matchesSearch (query category : String) (completed : Option Bool)
    (t : Todo) : Bool :=
  (if query == "" then true
   else goContains t.title query || goContains t.description query) &&
  (if category == "" then true else t.category == category) &&
  (match completed with
   | none => true
   | some b => t.completed == b)

/-- Comparator of `SearchTodos` read as a total preorder: priority
descending, ties broken by creation time descending. -/
def searchLe (a b : Todo) : Bool :=
  decide (b.priority < a.priority) ||
    (decide (a.priority = b.priority) && decide (b.createdAt ≤ a.createdAt))

/-- MemoryStore.SearchTodos: keeps the todos matching every supplied
criterion and sorts them by priority descending with creation time
descending as tie-break; the error value is always nil. -/
def searchTodos (s : MemoryStore) (query category : String)
    (completed : Option Bool) : Except StoreErr (List Todo) :=
  .ok (List.mergeSort (s.todos.filter (matchesSearch query category completed)) searchLe)

/-- Aggregate record returned by `GetStats` (the Go code stores these
fields in a single `map[string]interface\x7b\x7d`; the keys and their
meanings are unchanged). -/
structure Stats where
  total : Nat
  completed : Nat
  pending : Nat
  overdue : Nat
  byPriority : List (Int × Nat)
  byCategory : List (String × Nat)
  deriving DecidableEq, Repr

/-- Increment of a Go counting map at a key: `m[k]++` reads 0 for an
absent key, so the first increment installs the entry with value 1. -/
def bumpCount {α : Type} [DecidableEq α] (m : List (α × Nat)) (k : α) :
    List (α × Nat) :=
  match m with
  | [] => [(k, 1)]
  | (k', v) :: rest =>
      if k' = k then (k', v + 1) :: rest else (k', v) :: bumpCount rest k

/-- Read of a Go counting map at a key: 0 when the key is absent. -/
def lookupCount {α : Type} [DecidableEq α] (m : List (α × Nat)) (k : α) : Nat :=
  match m with
  | [] => 0
  | (k', v) :: rest => if k' = k then v else lookupCount rest k

/-- First part of the `GetStats` loop body: bump `completed` for a
completed todo, otherwise bump `pending` and additionally `overdue` when
the due date is set and earlier than now. -/
def bumpCompletion (now : Int) (acc : Stats) (t : Todo) : Stats :=
  if t.completed then { acc with completed := acc.completed + 1 }
  else
    let acc' := { acc with pending := acc.pending + 1 }
    if !(t.dueDate == 0) && decide (t.dueDate < now) then
      { acc' with overdue := acc'.overdue + 1 }
    else acc'

/-- Second part of the `GetStats` loop body: bump the priority counter. -/
def bumpPriority (acc : Stats) (t : Todo) : Stats :=
  { acc with byPriority := bumpCount acc.byPriority t.priority }

/-- Third part of the `GetStats` loop body: bump the category counter
unless the category is empty. -/
def bumpCategory (acc : Stats) (t : Todo) : Stats :=
  if t.category == "" then acc
  else { acc with byCategory := bumpCount acc.byCategory t.category }

/-- Loop body of `GetStats` for one todo. -/
def statsStep (now : Int) (acc : Stats) (t : Todo) : Stats :=
  bumpCategory (bumpPriority (bumpCompletion now acc t) t) t

/-- MemoryStore.GetStats: total is the map size; the remaining counters
are accumulated over the todos; the error value is always nil. -/
def getStats (s : MemoryStore) (now : Int) : Except StoreErr Stats :=
  .ok (s.todos.foldl (statsStep now)
        { total := s.todos.length, completed := 0, pending := 0,
          overdue := 0, byPriority := [], byCategory := [] })

/-- One store operation of a client-visible history. -/
inductive Op where
  | create (req : TodoRequest) (now : Int)
  | update (id : Int) (req : TodoRequest) (now : Int)
  | delete (id : Int)
  deriving Repr

/-- Apply one operation; a create also reports the id it returned. -/
def applyOp (s : MemoryStore) : Op → MemoryStore × Option Int
  | .create req now =>
      let (t, s') := createTodo s req now
      (s', some t.id)
  | .update id req now => ((updateTodo s id req now).1, none)
  | .delete id => ((deleteTodo s id).1, none)

/-- Run a sequence of operations, collecting the ids returned by the
create calls in order. -/
def runOps (s : MemoryStore) : List Op → MemoryStore × List Int
  | [] => (s, [])
  | op :: ops =>
      let (s', created) := applyOp s op
      let (s'', ids) := runOps s' ops
      (s'', created.toList ++ ids)

/-- Well-formedness of a store state: every stored id is below the
counter. -/
def IdsBounded (s : MemoryStore) : Prop :=
  ∀ t ∈ s.todos, t.id < s.nextID

instance (s : MemoryStore) : Decidable (IdsBounded s) := by
  unfold IdsBounded; infer_instance

/-! Basic lemmas about the map embedding. -/

theorem findTodo_insertTodo_self (l : List Todo) (t : Todo) :
    findTodo (insertTodo l t) t.id = some t := by
  induction l with
  | nil => simp [findTodo, insertTodo, List.find?]
  | cons u rest ih =>
      by_cases h : u.id == t.id
      · simp [insertTodo, h, findTodo, List.find?]
      · simpa [insertTodo, h, findTodo, List.find?] using ih

theorem findTodo_eraseTodo_self (l : List Todo) (id : Int) :
    findTodo (eraseTodo l id) id = none := by
  rw [findTodo, List.find?_eq_none]
  intro t ht
  have := (List.mem_filter.mp ht).2
  simpa using this

theorem findTodo_some (l : List Todo) (id : Int) (t : Todo)
    (h : findTodo l id = some t) : t ∈ l ∧ t.id = id := by
  refine ⟨List.mem_of_find?_eq_some h, ?_⟩
  have := List.find?_some h
  simpa using this

theorem mem_insertTodo (l : List Todo) (t u : Todo)
    (h : u ∈ insertTodo l t) : u = t ∨ u ∈ l := by
  induction l with
  | nil => simpa [insertTodo] using h
  | cons v rest ih =>
      by_cases hv : v.id == t.id
      · simp [insertTodo, hv] at h
        rcases h with h | h
        · exact Or.inl h
        · exact Or.inr (List.mem_cons_of_mem _ h)
      · simp [insertTodo, hv] at h
        rcases h with h | h
        · exact Or.inr (h ▸ List.mem_cons_self v rest)
        · rcases ih h with h' | h'
          · exact Or.inl h'
          · exact Or.inr (List.mem_cons_of_mem _ h')

/-- C2: on a store whose ids are all below the counter, Create hands out the
counter value — an id no stored todo carries — copies every request field
into the new record, stamps both timestamps with the current time, bumps the
counter, and the stored record fetched by the returned id is exactly the
returned record (the underlying counter of a store before seeding starts at
1); the operation is infallible by its type. -/
theorem createTodo_spec (s : MemoryStore) (req : TodoRequest) (now : Int)
    (hWF : IdsBounded s) :
    emptyInit.nextID = 1 ∧
    findTodo s.todos s.nextID = none ∧
    (createTodo s req now).1.id = s.nextID ∧
    (createTodo s req now).1.title = req.title ∧
    (createTodo s req now).1.description = req.description ∧
    (createTodo s req now).1.completed = req.completed ∧
    (createTodo s req now).1.priority = req.priority ∧
    (createTodo s req now).1.category = req.category ∧
    (createTodo s req now).1.dueDate = req.dueDate ∧
    (createTodo s req now).1.createdAt = now ∧
    (createTodo s req now).1.updatedAt = (createTodo s req now).1.createdAt ∧
    (createTodo s req now).2.nextID = s.nextID + 1 ∧
    getTodoByID (createTodo s req now).2 (createTodo s req now).1.id =
      .ok (createTodo s req now).1 := by
  refine ⟨rfl, ?_, rfl, rfl, rfl, rfl, rfl, rfl, rfl, rfl, rfl, rfl, ?_⟩
  · rw [findTodo, List.find?_eq_none]
    intro t ht
    have := hWF t ht
    simp only [beq_iff_eq]
    omega
  · show getTodoByID _ _ = _
    rw [getTodoByID]
    have h := findTodo_insertTodo_self s.todos (createTodo s req now).1
    simp only [createTodo] at h ⊢
    rw [h]

/-- Witness for C2 at the seeded store and a concrete request. -/
theorem createTodo_spec_witness :
    IdsBounded (newMemoryStore 0) ∧
    (emptyInit.nextID = 1 ∧
     findTodo (newMemoryStore 0).todos (newMemoryStore 0).nextID = none ∧
     (createTodo (newMemoryStore 0) ⟨"Buy milk", "", false, 1, "", 0⟩ 5).1.id =
       (newMemoryStore 0).nextID ∧
     (createTodo (newMemoryStore 0) ⟨"Buy milk", "", false, 1, "", 0⟩ 5).1.title = "Buy milk" ∧
     (createTodo (newMemoryStore 0) ⟨"Buy milk", "", false, 1, "", 0⟩ 5).1.description = "" ∧
     (createTodo (newMemoryStore 0) ⟨"Buy milk", "", false, 1, "", 0⟩ 5).1.completed = false ∧
     (createTodo (newMemoryStore 0) ⟨"Buy milk", "", false, 1, "", 0⟩ 5).1.priority = 1 ∧
     (createTodo (newMemoryStore 0) ⟨"Buy milk", "", false, 1, "", 0⟩ 5).1.category = "" ∧
     (createTodo (newMemoryStore 0) ⟨"Buy milk", "", false, 1, "", 0⟩ 5).1.dueDate = 0 ∧
     (createTodo (newMemoryStore 0) ⟨"Buy milk", "", false, 1, "", 0⟩ 5).1.createdAt = 5 ∧
     (createTodo (newMemoryStore 0) ⟨"Buy milk", "", false, 1, "", 0⟩ 5).1.updatedAt =
       (createTodo (newMemoryStore 0) ⟨"Buy milk", "", false, 1, "", 0⟩ 5).1.createdAt ∧
     (createTodo (newMemoryStore 0) ⟨"Buy milk", "", false, 1, "", 0⟩ 5).2.nextID =
       (newMemoryStore 0).nextID + 1 ∧
     getTodoByID (createTodo (newMemoryStore 0) ⟨"Buy milk", "", false, 1, "", 0⟩ 5).2
       (createTodo (newMemoryStore 0) ⟨"Buy milk", "", false, 1, "", 0⟩ 5).1.id =
       .ok (createTodo (newMemoryStore 0) ⟨"Buy milk", "", false, 1, "", 0⟩ 5).1) :=
  ⟨by decide, createTodo_spec (newMemoryStore 0) ⟨"Buy milk", "", false, 1, "", 0⟩ 5 (by decide)⟩

/-- C3: on a present id, Update succeeds and replaces every mutable field
with the request's value (no merge with old values), stamps `updatedAt`
with the current time — which is at least the previous `updatedAt` whenever
the clock has not gone backwards — keeps `id` and `createdAt`, and the
stored record afterwards is the returned one. -/
theorem updateTodo_spec (s : MemoryStore) (id : Int) (req : TodoRequest)
    (now : Int) (old : Todo)
    (hget : getTodoByID s id = .ok old) (hmono : old.updatedAt ≤ now) :
    ∃ t', (updateTodo s id req now).2 = .ok t' ∧
      t'.title = req.title ∧ t'.description = req.description ∧
      t'.completed = req.completed ∧ t'.priority = req.priority ∧
      t'.category = req.category ∧ t'.dueDate = req.dueDate ∧
      t'.updatedAt = now ∧ old.updatedAt ≤ t'.updatedAt ∧
      t'.id = old.id ∧ t'.createdAt = old.createdAt ∧
      getTodoByID (updateTodo s id req now).1 id = .ok t' := by
  have hfind : findTodo s.todos id = some old := by
    rw [getTodoByID] at hget
    rcases h : findTodo s.todos id with _ | t
    · rw [h] at hget; exact absurd hget (by simp)
    · rw [h] at hget; simp at hget; rw [hget]
  have hid : old.id = id := (findTodo_some _ _ _ hfind).2
  refine ⟨old.fromRequest req now, ?_, rfl, rfl, rfl, rfl, rfl, rfl, rfl,
    hmono, rfl, rfl, ?_⟩
  · rw [updateTodo, hfind]
  · rw [updateTodo, hfind]
    show getTodoByID _ _ = _
    rw [getTodoByID]
    have h := findTodo_insertTodo_self s.todos (old.fromRequest req now)
    have hid' : (old.fromRequest req now).id = id := hid
    rw [hid'] at h
    simp only [h]

/-- Witness for C3: update todo 1 of the seeded store at time `hourNs`. -/
theorem updateTodo_spec_witness :
    (getTodoByID (newMemoryStore 0) 1 = .ok
      ⟨1, "学习 Go 语言", "掌握 Go 语言的基础语法和并发编程", false, 3, "学习",
        7 * 24 * hourNs, -(2 * 24 * hourNs), -(2 * 24 * hourNs)⟩) ∧
    (-(2 * 24 * hourNs) : Int) ≤ hourNs ∧
    (∃ t', (updateTodo (newMemoryStore 0) 1 ⟨"t", "d", true, 5, "c", 9⟩ hourNs).2 = .ok t' ∧
      t'.title = "t" ∧ t'.description = "d" ∧
      t'.completed = true ∧ t'.priority = 5 ∧
      t'.category = "c" ∧ t'.dueDate = 9 ∧
      t'.updatedAt = hourNs ∧ (-(2 * 24 * hourNs) : Int) ≤ t'.updatedAt ∧
      t'.id = 1 ∧ t'.createdAt = -(2 * 24 * hourNs) ∧
      getTodoByID (updateTodo (newMemoryStore 0) 1 ⟨"t", "d", true, 5, "c", 9⟩ hourNs).1 1 =
        .ok t') := by
  refine ⟨by rfl, by decide, ?_⟩
  have h := updateTodo_spec (newMemoryStore 0) 1 ⟨"t", "d", true, 5, "c", 9⟩ hourNs
    ⟨1, "学习 Go 语言", "掌握 Go 语言的基础语法和并发编程", false, 3, "学习",
      7 * 24 * hourNs, -(2 * 24 * hourNs), -(2 * 24 * hourNs)⟩ (by rfl) (by decide)
  simpa using h

/-- C4: each of Get, Update and Delete fails with `todoNotFound` exactly
when the id is absent from the store; a failed Update or Delete leaves the
store unchanged; and after a successful Delete, a Get and a second Delete
of the same id both fail with `todoNotFound`, the second Delete leaving
the store unchanged. -/
theorem notFound_spec (s : MemoryStore) (id : Int) (req : TodoRequest)
    (now : Int) :
    (getTodoByID s id = .error .todoNotFound ↔ findTodo s.todos id = none) ∧
    ((updateTodo s id req now).2 = .error .todoNotFound ↔
      findTodo s.todos id = none) ∧
    ((deleteTodo s id).2 = .error .todoNotFound ↔
      findTodo s.todos id = none) ∧
    (findTodo s.todos id = none →
      (updateTodo s id req now).1 = s ∧ (deleteTodo s id).1 = s) ∧
    ((deleteTodo s id).2 = .ok () →
      getTodoByID (deleteTodo s id).1 id = .error .todoNotFound ∧
      (deleteTodo (deleteTodo s id).1 id).2 = .error .todoNotFound ∧
      (deleteTodo (deleteTodo s id).1 id).1 = (deleteTodo s id).1) := by
  rcases h : findTodo s.todos id with _ | t
  · refine ⟨by simp [getTodoByID, h], by simp [updateTodo, h],
      by simp [deleteTodo, h], fun _ => ⟨by simp [updateTodo, h], by simp [deleteTodo, h]⟩,
      fun hdel => absurd hdel (by simp [deleteTodo, h])⟩
  · have herase : findTodo (eraseTodo s.todos id) id = none :=
      findTodo_eraseTodo_self s.todos id
    refine ⟨by simp [getTodoByID, h], by simp [updateTodo, h],
      by simp [deleteTodo, h], fun hnone => absurd hnone (by simp),
      fun _ => ⟨?_, ?_, ?_⟩⟩
    · simp [deleteTodo, h, getTodoByID, herase]
    · simp [deleteTodo, h, herase]
    · simp [deleteTodo, h, herase]

/-- Witness for C4 at the seeded store: id 2 is present, id 9 absent. -/
theorem notFound_spec_witness :
    ((getTodoByID (newMemoryStore 0) 9 = .error .todoNotFound ↔
       findTodo (newMemoryStore 0).todos 9 = none) ∧
     ((updateTodo (newMemoryStore 0) 9 ⟨"t", "", false, 1, "", 0⟩ 0).2 =
        .error .todoNotFound ↔ findTodo (newMemoryStore 0).todos 9 = none) ∧
     ((deleteTodo (newMemoryStore 0) 9).2 = .error .todoNotFound ↔
       findTodo (newMemoryStore 0).todos 9 = none) ∧
     (findTodo (newMemoryStore 0).todos 9 = none →
       (updateTodo (newMemoryStore 0) 9 ⟨"t", "", false, 1, "", 0⟩ 0).1 = newMemoryStore 0 ∧
       (deleteTodo (newMemoryStore 0) 9).1 = newMemoryStore 0) ∧
     ((deleteTodo (newMemoryStore 0) 9).2 = .ok () →
       getTodoByID (deleteTodo (newMemoryStore 0) 9).1 9 = .error .todoNotFound ∧
       (deleteTodo (deleteTodo (newMemoryStore 0) 9).1 9).2 = .error .todoNotFound ∧
       (deleteTodo (deleteTodo (newMemoryStore 0) 9).1 9).1 =
         (deleteTodo (newMemoryStore 0) 9).1)) ∧
    ((deleteTodo (newMemoryStore 0) 2).2 = .ok () →
      getTodoByID (deleteTodo (newMemoryStore 0) 2).1 2 = .error .todoNotFound ∧
      (deleteTodo (deleteTodo (newMemoryStore 0) 2).1 2).2 = .error .todoNotFound ∧
      (deleteTodo (deleteTodo (newMemoryStore 0) 2).1 2).1 =
        (deleteTodo (newMemoryStore 0) 2).1) :=
  ⟨notFound_spec (newMemoryStore 0) 9 ⟨"t", "", false, 1, "", 0⟩ 0,
   (notFound_spec (newMemoryStore 0) 2 ⟨"t", "", false, 1, "", 0⟩ 0).2.2.2.2⟩

theorem allLe_trans (a b c : Todo) : allLe a b → allLe b c → allLe a c := by
  simp only [allLe, decide_eq_true_eq]
  omega

theorem allLe_total (a b : Todo) : allLe a b || allLe b a := by
  simp only [allLe, Bool.or_eq_true, decide_eq_true_eq]
  omega

/-- C6: List-all never fails, returns a permutation of the stored todos
(each exactly once), sorted by creation time descending. -/
theorem getAllTodos_spec (s : MemoryStore) :
    ∃ l, getAllTodos s = .ok l ∧ l.Perm s.todos ∧
      l.Pairwise (fun a b => b.createdAt ≤ a.createdAt) := by
  refine ⟨List.mergeSort s.todos allLe, rfl, List.mergeSort_perm s.todos allLe, ?_⟩
  have h := @List.sorted_mergeSort Todo allLe
    (fun a b c => allLe_trans a b c) (fun a b => allLe_total a b) s.todos
  exact h.imp (by simp only [allLe, decide_eq_true_eq]; exact fun h => h)

theorem searchLe_trans (a b c : Todo) : searchLe a b → searchLe b c → searchLe a c := by
  simp only [searchLe, Bool.or_eq_true, Bool.and_eq_true, decide_eq_true_eq]
  intro hab hbc
  rcases hab with h1 | ⟨h1, h1'⟩ <;> rcases hbc with h2 | ⟨h2, h2'⟩
  · exact Or.inl (by omega)
  · exact Or.inl (by omega)
  · exact Or.inl (by omega)
  · exact Or.inr ⟨by omega, by omega⟩

theorem searchLe_total (a b : Todo) : searchLe a b || searchLe b a := by
  simp only [searchLe, Bool.or_eq_true, Bool.and_eq_true, decide_eq_true_eq]
  omega

/-- Unfolding of the search filter into the three supplied criteria. -/
theorem matchesSearch_iff (query category : String) (completed : Option Bool)
    (t : Todo) :
    matchesSearch query category completed t = true ↔
      ((query ≠ "" →
          (goContains t.title query || goContains t.description query) = true) ∧
       (category ≠ "" → t.category = category) ∧
       (∀ b, completed = some b → t.completed = b)) := by
  rw [matchesSearch.eq_def]
  rcases completed with _ | b <;>
    by_cases hq : query == "" <;> by_cases hc : category == "" <;>
      simp_all [beq_iff_eq] <;> tauto

/-- C5: Search never fails; a todo is in the result exactly when it is in
the store and satisfies every supplied criterion (free-text query as a
case-sensitive substring of title or description, category by equality,
tri-state completed filter against the completed field); the result is
ordered by priority descending with ties broken by creation time
descending. -/
theorem searchTodos_spec (s : MemoryStore) (query category : String)
    (completed : Option Bool) :
    ∃ l, searchTodos s query category completed = .ok l ∧
      (∀ t, t ∈ l ↔ (t ∈ s.todos ∧
        (query ≠ "" →
          (goContains t.title query || goContains t.description query) = true) ∧
        (category ≠ "" → t.category = category) ∧
        (∀ b, completed = some b → t.completed = b))) ∧
      l.Pairwise (fun a b => b.priority < a.priority ∨
        (a.priority = b.priority ∧ b.createdAt ≤ a.createdAt)) := by
  refine ⟨_, rfl, ?_, ?_⟩
  · intro t
    rw [List.mem_mergeSort, List.mem_filter, matchesSearch_iff]
  · have h := @List.sorted_mergeSort Todo searchLe
      (fun a b c => searchLe_trans a b c) (fun a b => searchLe_total a b)
      (s.todos.filter (matchesSearch query category completed))
    exact h.imp (by
      simp only [searchLe, Bool.or_eq_true, Bool.and_eq_true, decide_eq_true_eq]
      exact fun h => h)

/-- Witness for C5: search the seeded store for completed todos. -/
theorem searchTodos_spec_witness :
    ∃ l, searchTodos (newMemoryStore 0) "" "" (some true) = .ok l ∧
      (∀ t, t ∈ l ↔ (t ∈ (newMemoryStore 0).todos ∧
        ((("" : String) ≠ "") →
          (goContains t.title "" || goContains t.description "") = true) ∧
        ((("" : String) ≠ "") → t.category = "") ∧
        (∀ b, (some true : Option Bool) = some b → t.completed = b))) ∧
      l.Pairwise (fun a b => b.priority < a.priority ∨
        (a.priority = b.priority ∧ b.createdAt ≤ a.createdAt)) :=
  searchTodos_spec (newMemoryStore 0) "" "" (some true)

theorem lookupCount_bumpCount {α : Type} [DecidableEq α]
    (m : List (α × Nat)) (k k' : α) :
    lookupCount (bumpCount m k) k' =
      if k' = k then lookupCount m k' + 1 else lookupCount m k' := by
  induction m with
  | nil =>
      rcases eq_or_ne k' k with h | h
      · subst h; simp [bumpCount, lookupCount]
      · simp [bumpCount, lookupCount, h, h.symm]
  | cons e rest ih =>
      obtain ⟨ke, ve⟩ := e
      rcases eq_or_ne ke k with hek | hek
      · subst hek
        rcases eq_or_ne ke k' with hkk | hkk
        · subst hkk; simp [bumpCount, lookupCount]
        · simp [bumpCount, lookupCount, hkk, hkk.symm]
      · rcases eq_or_ne ke k' with hkk | hkk
        · subst hkk
          simp [bumpCount, lookupCount, hek, hek.symm]
        · simp [bumpCount, lookupCount, hek, hkk, ih]

theorem mem_bumpCount {α : Type} [DecidableEq α]
    (m : List (α × Nat)) (k : α) (e : α × Nat) (h : e ∈ bumpCount m k) :
    e.1 = k ∨ ∃ v, (e.1, v) ∈ m := by
  induction m with
  | nil => simp [bumpCount] at h; exact Or.inl (by rw [h])
  | cons e' rest ih =>
      obtain ⟨ke, ve⟩ := e'
      by_cases hek : ke = k
      · subst hek
        simp [bumpCount] at h
        rcases h with h | h
        · exact Or.inr ⟨ve, by rw [h]; exact List.mem_cons_self _ _⟩
        · exact Or.inr ⟨e.2, List.mem_cons_of_mem _ (by simpa using h)⟩
      · simp [bumpCount, hek] at h
        rcases h with h | h
        · exact Or.inr ⟨ve, by rw [h]; exact List.mem_cons_self _ _⟩
        · rcases ih h with h' | ⟨v, hv⟩
          · exact Or.inl h'
          · exact Or.inr ⟨v, List.mem_cons_of_mem _ hv⟩

/-- Characterization of the stats accumulation loop over any accumulator. -/
theorem statsStep_foldl (now : Int) (l : List Todo) (acc : Stats) :
    (l.foldl (statsStep now) acc).total = acc.total ∧
    (l.foldl (statsStep now) acc).completed =
      acc.completed + l.countP (fun t => t.completed) ∧
    (l.foldl (statsStep now) acc).pending =
      acc.pending + l.countP (fun t => !t.completed) ∧
    (l.foldl (statsStep now) acc).overdue =
      acc.overdue + l.countP
        (fun t => !t.completed && !(t.dueDate == 0) && decide (t.dueDate < now)) ∧
    (∀ p, lookupCount (l.foldl (statsStep now) acc).byPriority p =
      lookupCount acc.byPriority p + l.countP (fun t => t.priority == p)) ∧
    (∀ c, c ≠ "" → lookupCount (l.foldl (statsStep now) acc).byCategory c =
      lookupCount acc.byCategory c + l.countP (fun t => t.category == c)) ∧
    ((∀ e ∈ acc.byCategory, e.1 ≠ "") →
      ∀ e ∈ (l.foldl (statsStep now) acc).byCategory, e.1 ≠ "") := by
  induction l generalizing acc with
  | nil => simp
  | cons t rest ih =>
      simp only [List.foldl_cons, List.countP_cons]
      obtain ⟨ih1, ih2, ih3, ih4, ih5, ih6, ih7⟩ := ih (statsStep now acc t)
      have hcompl : (bumpCompletion now acc t).total = acc.total ∧
          (bumpCompletion now acc t).completed =
            acc.completed + (if t.completed then 1 else 0) ∧
          (bumpCompletion now acc t).pending =
            acc.pending + (if !t.completed then 1 else 0) ∧
          (bumpCompletion now acc t).overdue =
            acc.overdue + (if !t.completed && !(t.dueDate == 0) &&
              decide (t.dueDate < now) then 1 else 0) ∧
          (bumpCompletion now acc t).byPriority = acc.byPriority ∧
          (bumpCompletion now acc t).byCategory = acc.byCategory := by
        rw [bumpCompletion]
        by_cases hc : t.completed <;>
          by_cases hover : (!(t.dueDate == 0) && decide (t.dueDate < now)) = true <;>
          simp [hc, hover]
      have hprio : ∀ a : Stats, (bumpPriority a t).total = a.total ∧
          (bumpPriority a t).completed = a.completed ∧
          (bumpPriority a t).pending = a.pending ∧
          (bumpPriority a t).overdue = a.overdue ∧
          (bumpPriority a t).byPriority = bumpCount a.byPriority t.priority ∧
          (bumpPriority a t).byCategory = a.byCategory := by
        intro a; simp [bumpPriority]
      have hcat : ∀ a : Stats, (bumpCategory a t).total = a.total ∧
          (bumpCategory a t).completed = a.completed ∧
          (bumpCategory a t).pending = a.pending ∧
          (bumpCategory a t).overdue = a.overdue ∧
          (bumpCategory a t).byPriority = a.byPriority ∧
          (bumpCategory a t).byCategory =
            (if t.category == "" then a.byCategory
             else bumpCount a.byCategory t.category) := by
        intro a
        by_cases hc : t.category == "" <;> simp [bumpCategory, hc]
      obtain ⟨c1, c2, c3, c4, c5, c6⟩ := hcompl
      obtain ⟨p1, p2, p3, p4, p5, p6⟩ := hprio (bumpCompletion now acc t)
      obtain ⟨g1, g2, g3, g4, g5, g6⟩ :=
        hcat (bumpPriority (bumpCompletion now acc t) t)
      have hstep_total : (statsStep now acc t).total = acc.total := by
        rw [statsStep, g1, p1, c1]
      have hstep_completed : (statsStep now acc t).completed =
          acc.completed + (if t.completed then 1 else 0) := by
        rw [statsStep, g2, p2, c2]
      have hstep_pending : (statsStep now acc t).pending =
          acc.pending + (if !t.completed then 1 else 0) := by
        rw [statsStep, g3, p3, c3]
      have hstep_overdue : (statsStep now acc t).overdue =
          acc.overdue + (if !t.completed && !(t.dueDate == 0) &&
            decide (t.dueDate < now) then 1 else 0) := by
        rw [statsStep, g4, p4, c4]
      have hstep_prio : ∀ p, lookupCount (statsStep now acc t).byPriority p =
          lookupCount acc.byPriority p + (if t.priority == p then 1 else 0) := by
        intro p
        rw [statsStep, g5, p5, c5, lookupCount_bumpCount]
        rcases eq_or_ne t.priority p with hp | hp
        · subst hp; simp
        · simp [hp, hp.symm]
      have hstep_cat : ∀ c, c ≠ "" →
          lookupCount (statsStep now acc t).byCategory c =
            lookupCount acc.byCategory c + (if t.category == c then 1 else 0) := by
        intro c hne
        rw [statsStep, g6, p6, c6]
        by_cases hc : t.category == ""
        · have : t.category ≠ c := by
            intro hcc; exact hne (hcc ▸ (by simpa using hc))
          simp [hc, this]
        · rw [if_neg (by simpa using hc), lookupCount_bumpCount]
          rcases eq_or_ne t.category c with hcc | hcc
          · subst hcc; simp
          · simp [hcc, hcc.symm]
      have hstep_keys : (∀ e ∈ acc.byCategory, e.1 ≠ "") →
          ∀ e ∈ (statsStep now acc t).byCategory, e.1 ≠ "" := by
        intro hkeys e he
        rw [statsStep, g6, p6, c6] at he
        by_cases hc : t.category == ""
        · rw [if_pos hc] at he; exact hkeys e he
        · rw [if_neg hc] at he
          rcases mem_bumpCount _ _ _ he with h | ⟨v, hv⟩
          · rw [h]; simpa using hc
          · exact hkeys (e.1, v) hv
      refine ⟨by rw [ih1, hstep_total], ?_, ?_, ?_, ?_, ?_, ?_⟩
      · rw [ih2, hstep_completed]; omega
      · rw [ih3, hstep_pending]; omega
      · rw [ih4, hstep_overdue]; omega
      · intro p; rw [ih5 p, hstep_prio p]; omega
      · intro c hc; rw [ih6 c hc, hstep_cat c hc]; omega
      · intro hkeys; exact ih7 (hstep_keys hkeys)

/-- C7: Stats never fails and returns total = number of stored todos,
completed and pending = counts by the completed flag, overdue = count of
pending todos whose due date is set and earlier than now, a priority
counting map whose value at any priority is the number of todos with that
priority, and a category counting map whose value at any non-empty
category is the number of todos with that category, with no entry for the
empty category; on an empty store every count is 0 and both maps are
empty. -/
theorem getStats_spec (s : MemoryStore) (now : Int) :
    ∃ st, getStats s now = .ok st ∧
      st.total = s.todos.length ∧
      st.completed = s.todos.countP (fun t => t.completed) ∧
      st.pending = s.todos.countP (fun t => !t.completed) ∧
      st.overdue = s.todos.countP
        (fun t => !t.completed && !(t.dueDate == 0) && decide (t.dueDate < now)) ∧
      (∀ p, lookupCount st.byPriority p =
        s.todos.countP (fun t => t.priority == p)) ∧
      (∀ c, c ≠ "" → lookupCount st.byCategory c =
        s.todos.countP (fun t => t.category == c)) ∧
      (∀ e ∈ st.byCategory, e.1 ≠ "") ∧
      (s.todos = [] → st = ⟨0, 0, 0, 0, [], []⟩) := by
  obtain ⟨h1, h2, h3, h4, h5, h6, h7⟩ := statsStep_foldl now s.todos
    { total := s.todos.length, completed := 0, pending := 0,
      overdue := 0, byPriority := [], byCategory := [] }
  refine ⟨_, rfl, h1, by simpa using h2, by simpa using h3, by simpa using h4,
    fun p => by simpa [lookupCount] using h5 p,
    fun c hc => by simpa [lookupCount] using h6 c hc,
    h7 (by simp), fun hempty => by simp [hempty]⟩

/-- Witness for C7 at the seeded store at the seed instant. -/
theorem getStats_spec_witness :
    ∃ st, getStats (newMemoryStore 0) 0 = .ok st ∧
      st.total = (newMemoryStore 0).todos.length ∧
      st.completed = (newMemoryStore 0).todos.countP (fun t => t.completed) ∧
      st.pending = (newMemoryStore 0).todos.countP (fun t => !t.completed) ∧
      st.overdue = (newMemoryStore 0).todos.countP
        (fun t => !t.completed && !(t.dueDate == 0) && decide (t.dueDate < 0)) ∧
      (∀ p, lookupCount st.byPriority p =
        (newMemoryStore 0).todos.countP (fun t => t.priority == p)) ∧
      (∀ c, c ≠ "" → lookupCount st.byCategory c =
        (newMemoryStore 0).todos.countP (fun t => t.category == c)) ∧
      (∀ e ∈ st.byCategory, e.1 ≠ "") ∧
      ((newMemoryStore 0).todos = [] → st = ⟨0, 0, 0, 0, [], []⟩) :=
  getStats_spec (newMemoryStore 0) 0

/-- Counterexample to C8 as stated: the response of a plain pending todo at
time 0 carries the status string "进行中", which is none of the three
ASCII values "in-progress" / "completed" / "overdue" named by the claim. -/
theorem toResponse_status_counterexample :
    (Todo.toResponse ⟨1, "a", "", false, 1, "", 0, 0, 0⟩ 0).status = "进行中" ∧
    ¬((Todo.toResponse ⟨1, "a", "", false, 1, "", 0, 0, 0⟩ 0).status = "in-progress" ∨
      (Todo.toResponse ⟨1, "a", "", false, 1, "", 0, 0, 0⟩ 0).status = "completed" ∨
      (Todo.toResponse ⟨1, "a", "", false, 1, "", 0, 0, 0⟩ 0).status = "overdue") := by
  constructor
  · rfl
  · intro h
    rcases h with h | h | h <;> exact absurd h (by decide)

/-- C8 (amended): the response carries `isOverdue` true exactly when the
todo is not completed, has a due date set and the due date is earlier than
now; `status` is one of the three values "已完成" (completed), "已过期"
(overdue) and "进行中" (in progress) — "已完成" when the todo is
completed, "已过期" when `isOverdue` holds, "进行中" otherwise. -/
theorem toResponse_spec (t : Todo) (now : Int) :
    ((t.toResponse now).isOverdue = true ↔
      (t.completed = false ∧ t.dueDate ≠ 0 ∧ t.dueDate < now)) ∧
    ((t.toResponse now).status = "已完成" ∨ (t.toResponse now).status = "已过期" ∨
      (t.toResponse now).status = "进行中") ∧
    (t.completed = true → (t.toResponse now).status = "已完成") ∧
    ((t.toResponse now).isOverdue = true → (t.toResponse now).status = "已过期") ∧
    (t.completed = false → (t.toResponse now).isOverdue = false →
      (t.toResponse now).status = "进行中") := by
  have hover : (t.toResponse now).isOverdue =
      (!t.completed && !(t.dueDate == 0) && decide (t.dueDate < now)) := rfl
  cases hc : t.completed with
  | true =>
      refine ⟨?_, ?_, ?_, ?_, ?_⟩
      · rw [hover, hc]; simp
      · left; simp [Todo.toResponse, hc]
      · intro _; simp [Todo.toResponse, hc]
      · intro ho; rw [hover, hc] at ho; simp at ho
      · intro h; exact absurd h (by simp)
  | false =>
      refine ⟨?_, ?_, ?_, ?_, ?_⟩
      · rw [hover, hc]; simp [and_assoc]
      · by_cases ho : (!(t.dueDate == 0) && decide (t.dueDate < now)) = true
        · right; left; simp [Todo.toResponse, hc, ho]
        · right; right; simp [Todo.toResponse, hc, ho]
      · intro h; exact absurd h (by simp)
      · intro ho
        rw [hover, hc] at ho
        simp only [Bool.not_false, Bool.true_and] at ho
        simp [Todo.toResponse, hc, ho]
      · intro _ ho
        rw [hover, hc] at ho
        simp only [Bool.not_false, Bool.true_and] at ho
        simp [Todo.toResponse, hc, ho]

/-- Witness for C8 (amended) at an overdue concrete todo. -/
theorem toResponse_spec_witness :
    (((Todo.toResponse ⟨1, "a", "", false, 1, "", 3, 0, 0⟩ 5).isOverdue = true ↔
      ((false : Bool) = false ∧ (3 : Int) ≠ 0 ∧ (3 : Int) < 5)) ∧
     ((Todo.toResponse ⟨1, "a", "", false, 1, "", 3, 0, 0⟩ 5).status = "已完成" ∨
      (Todo.toResponse ⟨1, "a", "", false, 1, "", 3, 0, 0⟩ 5).status = "已过期" ∨
      (Todo.toResponse ⟨1, "a", "", false, 1, "", 3, 0, 0⟩ 5).status = "进行中") ∧
     ((false : Bool) = true →
       (Todo.toResponse ⟨1, "a", "", false, 1, "", 3, 0, 0⟩ 5).status = "已完成") ∧
     ((Todo.toResponse ⟨1, "a", "", false, 1, "", 3, 0, 0⟩ 5).isOverdue = true →
       (Todo.toResponse ⟨1, "a", "", false, 1, "", 3, 0, 0⟩ 5).status = "已过期") ∧
     ((false : Bool) = false →
       (Todo.toResponse ⟨1, "a", "", false, 1, "", 3, 0, 0⟩ 5).isOverdue = false →
       (Todo.toResponse ⟨1, "a", "", false, 1, "", 3, 0, 0⟩ 5).status = "进行中")) :=
  toResponse_spec ⟨1, "a", "", false, 1, "", 3, 0, 0⟩ 5

theorem nextID_applyOp (s : MemoryStore) (op : Op) :
    s.nextID ≤ (applyOp s op).1.nextID := by
  rcases op with ⟨req, now⟩ | ⟨id, req, now⟩ | id
  · simp [applyOp, createTodo]
  · rcases h : findTodo s.todos id with _ | t <;>
      simp [applyOp, updateTodo, h]
  · rcases h : findTodo s.todos id with _ | t <;>
      simp [applyOp, deleteTodo, h]

theorem runOps_cons (s : MemoryStore) (op : Op) (ops : List Op) :
    runOps s (op :: ops) =
      ((runOps (applyOp s op).1 ops).1,
       (applyOp s op).2.toList ++ (runOps (applyOp s op).1 ops).2) := rfl

/-- Over any run, the counter never decreases, the ids handed out by the
creates are strictly increasing, and every one of them lies between the
initial and the final counter value. -/
theorem runOps_created_bounds (ops : List Op) (s : MemoryStore) :
    s.nextID ≤ (runOps s ops).1.nextID ∧
    List.Chain' (· < ·) (runOps s ops).2 ∧
    (∀ i ∈ (runOps s ops).2, s.nextID ≤ i ∧ i < (runOps s ops).1.nextID) := by
  induction ops generalizing s with
  | nil => simp [runOps]
  | cons op ops ih =>
      obtain ⟨ihmono, ihchain, ihbound⟩ := ih (applyOp s op).1
      have hmono := nextID_applyOp s op
      rw [runOps_cons]
      dsimp only
      rcases op with ⟨req, now⟩ | ⟨id, req, now⟩ | id
      · have hnext : (applyOp s (Op.create req now)).1.nextID = s.nextID + 1 := by
          simp [applyOp, createTodo]
        have hcreated : (applyOp s (Op.create req now)).2 = some s.nextID := by
          simp [applyOp, createTodo]
        refine ⟨by omega, ?_, ?_⟩
        · rw [hcreated]
          refine List.chain'_cons'.mpr ⟨?_, ihchain⟩
          intro y hy
          have hmem := List.mem_of_mem_head? hy
          have := (ihbound y hmem).1
          omega
        · intro i hi
          rw [hcreated] at hi
          simp only [Option.toList_some, List.cons_append, List.nil_append,
            List.mem_cons] at hi
          rcases hi with hi | hi
          · subst hi; omega
          · have := ihbound i hi; omega
      · have hnone : (applyOp s (Op.update id req now)).2 = none := by
          simp [applyOp]
        refine ⟨by omega, ?_, ?_⟩
        · rw [hnone]; simpa using ihchain
        · intro i hi
          rw [hnone] at hi
          simp only [Option.toList_none, List.nil_append] at hi
          have := ihbound i hi
          exact ⟨by omega, this.2⟩
      · have hnone : (applyOp s (Op.delete id)).2 = none := by
          simp [applyOp]
        refine ⟨by omega, ?_, ?_⟩
        · rw [hnone]; simpa using ihchain
        · intro i hi
          rw [hnone] at hi
          simp only [Option.toList_none, List.nil_append] at hi
          have := ihbound i hi
          exact ⟨by omega, this.2⟩

theorem idsBounded_applyOp (s : MemoryStore) (op : Op) (h : IdsBounded s) :
    IdsBounded (applyOp s op).1 := by
  rcases op with ⟨req, now⟩ | ⟨id, req, now⟩ | id
  · intro t ht
    simp only [applyOp, createTodo] at ht ⊢
    rcases mem_insertTodo _ _ _ ht with heq | hmem
    · rw [heq]; show s.nextID < s.nextID + 1; omega
    · have := h t hmem; omega
  · rcases hf : findTodo s.todos id with _ | told
    · simpa [applyOp, updateTodo, hf] using h
    · intro t ht
      simp only [applyOp, updateTodo, hf] at ht ⊢
      rcases mem_insertTodo _ _ _ ht with heq | hmem
      · rw [heq]
        have := h told (findTodo_some _ _ _ hf).1
        simpa [Todo.fromRequest] using this
      · exact h t hmem
  · rcases hf : findTodo s.todos id with _ | told
    · simpa [applyOp, deleteTodo, hf] using h
    · intro t ht
      simp only [applyOp, deleteTodo, hf] at ht ⊢
      exact h t (List.mem_of_mem_filter ht)

theorem idsBounded_runOps (ops : List Op) (s : MemoryStore)
    (h : IdsBounded s) : IdsBounded (runOps s ops).1 := by
  induction ops generalizing s with
  | nil => simpa [runOps] using h
  | cons op ops ih =>
      show IdsBounded (runOps (applyOp s op).1 ops).1
      exact ih _ (idsBounded_applyOp s op h)

/-- C1: starting from any well-formed store, the ids handed out by the
create calls of an arbitrary operation sequence are strictly increasing
(hence never repeated), and an id removed by a successful delete is never
handed out by any later create. -/
theorem createdIds_strictMono_no_reuse (s : MemoryStore) (ops1 ops2 : List Op)
    (id : Int) (hWF : IdsBounded s)
    (hdel : (deleteTodo (runOps s ops1).1 id).2 = .ok ()) :
    List.Chain' (· < ·) (runOps s (ops1 ++ Op.delete id :: ops2)).2 ∧
    id ∉ (runOps (deleteTodo (runOps s ops1).1 id).1 ops2).2 := by
  constructor
  · exact (runOps_created_bounds (ops1 ++ Op.delete id :: ops2) s).2.1
  · set s1 := (runOps s ops1).1 with hs1
    have hWF1 : IdsBounded s1 := idsBounded_runOps ops1 s hWF
    obtain ⟨told, hfind⟩ : ∃ t, findTodo s1.todos id = some t := by
      rcases hf : findTodo s1.todos id with _ | t
      · rw [deleteTodo, hf] at hdel; exact absurd hdel (by simp)
      · exact ⟨t, rfl⟩
    have hidlt : id < s1.nextID := by
      have := hWF1 told (findTodo_some _ _ _ hfind).1
      rw [(findTodo_some _ _ _ hfind).2] at this
      exact this
    have hnext2 : (deleteTodo s1 id).1.nextID = s1.nextID := by
      rw [deleteTodo, hfind]
    intro hmem
    have := ((runOps_created_bounds ops2 (deleteTodo s1 id).1).2.2 id hmem).1
    omega

/-- Witness for C1: delete id 2 of the seeded store, then create; the
created ids of the whole history are strictly increasing and 2 is not
handed out again. -/
theorem createdIds_strictMono_no_reuse_witness :
    IdsBounded (newMemoryStore 0) ∧
    (deleteTodo (runOps (newMemoryStore 0) []).1 2).2 = .ok () ∧
    (List.Chain' (· < ·)
      (runOps (newMemoryStore 0)
        ([] ++ Op.delete 2 :: [Op.create ⟨"x", "", false, 1, "", 0⟩ 0])).2 ∧
     2 ∉ (runOps (deleteTodo (runOps (newMemoryStore 0) []).1 2).1
        [Op.create ⟨"x", "", false, 1, "", 0⟩ 0]).2) :=
  ⟨by decide, by rfl,
   createdIds_strictMono_no_reuse (newMemoryStore 0) []
     [Op.create ⟨"x", "", false, 1, "", 0⟩ 0] 2 (by decide) (by rfl)⟩

/-- C10: a freshly constructed store is not empty — it holds exactly the
three seeded todos with ids 1, 2 and 3, its counter is 4, List-all on it
returns three records, and the first Create on it returns id 4. -/
theorem newMemoryStore_spec (now now2 : Int) (req : TodoRequest) :
    (newMemoryStore now).todos.map (fun t => t.id) = [1, 2, 3] ∧
    (newMemoryStore now).nextID = 4 ∧
    (∃ l, getAllTodos (newMemoryStore now) = .ok l ∧ l.length = 3) ∧
    (createTodo (newMemoryStore now) req now2).1.id = 4 := by
  refine ⟨rfl, rfl, ⟨List.mergeSort (newMemoryStore now).todos allLe, rfl, ?_⟩, rfl⟩
  rw [List.length_mergeSort]
  rfl

end XStream
